import Mathlib

/-!
# Verification of the bitcoin-dca-tracker currency-normalization and metrics engine

Shallow embedding of the purchase data model, the currency resolvers, the
portfolio-metrics aggregator, the DCA time-series engine and the currency
detection utility from `src/components/portfolio-chart.tsx` (which holds both
the chart component's strict resolvers and the exported library functions).

Modelling conventions:
* JavaScript numbers are modelled as rationals (`ℚ`); every field of the
  normalized purchase record is a well-typed finite number or string, so the
  `num` coercion helper only has to handle absence (`undefined ↦ NaN ↦ default`).
* `new Date(s).getTime()` is modelled by an explicit parameter
  `getTime : String → Int` threaded into the functions that sort by date;
  the engine only ever compares these timestamps.
* `Array.prototype.sort` with the comparator
  `(a, b) => getTime(a.date) - getTime(b.date)` is a stable sort consistent
  with the comparator, hence uniquely determined; it is modelled by
  `List.insertionSort` over `getTime a.date ≤ getTime b.date`, which is stable.
* JavaScript objects used as string-keyed maps preserve key insertion order,
  so they are modelled as association lists where a new key is appended.
* `throw` is modelled by `Except String`; functions that cannot throw stay pure.
-/

/-- A normalized purchase record (`BitcoinPurchase` in `lib/types.ts`).
Required fields are plain values, optional fields are `Option`. Only the
fields read by the verified functions are included. -/
structure Purchase where
  date : String
  amount_btc : ℚ
  price_usd : ℚ
  fee_usd : Option ℚ := none
  exchange : Option String := none
  type : Option String := none
  timezone : Option String := none
  currency_received : Option String := none
  currency_sent : Option String := none
  fee_amount : Option ℚ := none
  fee_currency : Option String := none
  description : Option String := none
  address : Option String := none
  transaction_hash : Option String := none
  fiat_amount : Option ℚ := none
  fiat_currency : Option String := none
  price_fiat : Option ℚ := none
  fee_fiat : Option ℚ := none
  effective_price : Option ℚ := none
  deriving DecidableEq

/-- FX rate provider capability (`FXRates` in `lib/storage.ts`):
`getRate(from, to, date?) → number | null`. -/
structure FXRates where
  getRate : String → String → Option String → Option ℚ

/-- Cost basis selector (source name `Basis`; renamed because Lean's library
already declares `Basis`). -/
inductive CostBasis where
  | execution
  | effective
  deriving DecidableEq

/-- DCA valuation mode (`DCAMode`). -/
inductive DCAMode where
  | toDate
  | markToMarket
  deriving DecidableEq

/-- Merged option bag (`MetricOptions & CurrencyOptions & DCAOptions`);
an absent options object behaves exactly like `{}` because the code only
ever reads optional fields from it. -/
structure Options where
  basis : Option CostBasis := none
  fiat : Option String := none
  fx : Option FXRates := none
  mode : Option DCAMode := none
  getHistoricalPrice : Option (String → ℚ) := none
  currentPriceCurrency : Option String := none

/-- `num(x, d)`: coerce an optional numeric field, absent values fall back to
the default (source: `const num = (x, d = 0) => ...Number.isFinite...`). -/
def num (x : Option ℚ) (d : ℚ := 0) : ℚ := x.getD d

/-- JavaScript truthiness of an optional string field:
`undefined` and the empty string are falsy. -/
def strTruthy : Option String → Bool
  | none => false
  | some s => s ≠ ""

/-- JavaScript string short-circuit `a || b` for an optional string `a`
against a plain default. -/
def jsOrStr (a : Option String) (b : String) : String :=
  match a with
  | none => b
  | some s => if s = "" then b else s

/-- `fx.getRate(from, to, date) ?? fx.getRate(from, to)`: the undated lookup
is consulted only when the dated lookup returns `null` (not when it
returns `0`). -/
def jsRate (fx : FXRates) (fromCur toCur : String) (date : Option String) : Option ℚ :=
  match fx.getRate fromCur toCur date with
  | some r => some r
  | none => fx.getRate fromCur toCur none

/-- `convertPriceToTarget(price, priceCur, target, fx?, date?)`
(portfolio-chart.tsx:703): strict conversion that throws when an FX provider
is missing or the looked-up rate is absent or zero ("falsy"). -/
def convertPriceToTarget (price : ℚ) (priceCur target : String)
    (fx : Option FXRates) (date : Option String) : Except String ℚ :=
  if priceCur = target then .ok price
  else
    match fx with
    | none => .error ("FX required to convert " ++ priceCur ++ "->" ++ target)
    | some g =>
      match jsRate g priceCur target date with
      | none => .error ("Missing FX " ++ priceCur ++ "->" ++ target ++ " on " ++ date.getD "n/a")
      | some r =>
        if r = 0 then
          .error ("Missing FX " ++ priceCur ++ "->" ++ target ++ " on " ++ date.getD "n/a")
        else .ok (price * r)

namespace Chart

/-- The chart component's strict `rowCostFiatExclFees` (portfolio-chart.tsx:15):
prioritized cost resolution that throws on a missing FX rate. Each branch's
inlined `from === target / !fx / !r` ladder is exactly the body of
`convertPriceToTarget`, so it is expressed through that definition. -/
def rowCostFiatExclFees (p : Purchase) (options : Options) : Except String ℚ :=
  let target := options.fiat.getD "USD"
  if num p.fiat_amount > 0 then
    if strTruthy p.fiat_currency then
      convertPriceToTarget (num p.fiat_amount) ((p.fiat_currency).getD "") target
        options.fx (some p.date)
    else .ok (num p.fiat_amount)
  else if num p.price_fiat > 0 ∧ strTruthy p.fiat_currency then
    convertPriceToTarget (p.amount_btc * num p.price_fiat) ((p.fiat_currency).getD "") target
      options.fx (some p.date)
  else
    convertPriceToTarget (p.amount_btc * p.price_usd) "USD" target options.fx (some p.date)

/-- The chart component's strict `rowFeeFiat` (portfolio-chart.tsx:53):
`fee_fiat` (with `fiat_currency`), then `fee_amount` (with `fee_currency`),
then `fee_usd`; throws on a missing FX rate. -/
def rowFeeFiat (p : Purchase) (options : Options) : Except String ℚ :=
  let target := options.fiat.getD "USD"
  if num p.fee_fiat > 0 ∧ strTruthy p.fiat_currency then
    convertPriceToTarget (num p.fee_fiat) ((p.fiat_currency).getD "") target
      options.fx (some p.date)
  else if num p.fee_amount > 0 ∧ strTruthy p.fee_currency then
    convertPriceToTarget (num p.fee_amount) ((p.fee_currency).getD "") target
      options.fx (some p.date)
  else
    convertPriceToTarget (num p.fee_usd) "USD" target options.fx (some p.date)

end Chart

/-- The local `rowFiat` of the library's `rowCostFiatExclFees`
(portfolio-chart.tsx:723): `num(p.fiat_amount, num(p.amount_btc) *
(num(p.price_fiat) || num(p.price_usd)))`. -/
def costRowFiat (p : Purchase) : ℚ :=
  num p.fiat_amount
    (p.amount_btc * (if num p.price_fiat = 0 then p.price_usd else num p.price_fiat))

/-- The local `from` of the library's `rowCostFiatExclFees`
(portfolio-chart.tsx:728): `p.fiat_currency || (p.price_fiat ?
p.fiat_currency : 'USD')`. -/
def costSourceCur (p : Purchase) : Option String :=
  if strTruthy p.fiat_currency then p.fiat_currency
  else if num p.price_fiat ≠ 0 then p.fiat_currency
  else some "USD"

/-- The library's graceful `rowCostFiatExclFees` (portfolio-chart.tsx:718):
never throws; a conversion that cannot be performed falls back to the legacy
USD basis `amount_btc * price_usd`. -/
def rowCostFiatExclFees (p : Purchase) (options : Options) : ℚ :=
  let targetFiat := options.fiat.getD "USD"
  let rowFiat := costRowFiat p
  let fromCur := costSourceCur p
  if ¬ strTruthy fromCur ∨ fromCur = some targetFiat then rowFiat
  else
    match options.fx with
    | none => p.amount_btc * p.price_usd
    | some g =>
      match jsRate g (fromCur.getD "") targetFiat (some p.date) with
      | none => p.amount_btc * p.price_usd
      | some r => if r = 0 then p.amount_btc * p.price_usd else rowFiat * r

/-- The local `from` of the library's `rowFeeFiat` (portfolio-chart.tsx:752):
`p.fee_currency || (p.fiat_currency ?? 'USD')`. -/
def feeSourceCur (p : Purchase) : String :=
  match p.fee_currency with
  | some c => if c = "" then (p.fiat_currency).getD "USD" else c
  | none => (p.fiat_currency).getD "USD"

/-- The local `fee` of the library's `rowFeeFiat` (portfolio-chart.tsx:753):
`num(p.fee_fiat, num(p.fee_usd))`. -/
def feeBase (p : Purchase) : ℚ := num p.fee_fiat (num p.fee_usd)

/-- The library's graceful `rowFeeFiat` (portfolio-chart.tsx:747):
never throws; falls back to `fee_usd` when conversion is unavailable. -/
def rowFeeFiat (p : Purchase) (options : Options) : ℚ :=
  let targetFiat := options.fiat.getD "USD"
  let fromCur := feeSourceCur p
  let fee := feeBase p
  if fee = 0 then 0
  else if fromCur = targetFiat then fee
  else
    match options.fx with
    | none => num p.fee_usd
    | some g =>
      match jsRate g fromCur targetFiat (some p.date) with
      | none => num p.fee_usd
      | some r => if r = 0 then num p.fee_usd else fee * r

/-- Propositional equality on `Except` results is decidable when it is on
both components; used to evaluate closed statements about the engine. -/
instance {e a : Type} [DecidableEq e] [DecidableEq a] : DecidableEq (Except e a) := fun x y =>
  match x, y with
  | .ok v, .ok w =>
    if h : v = w then isTrue (by rw [h]) else isFalse (by intro hc; cases hc; exact h rfl)
  | .error v, .error w =>
    if h : v = w then isTrue (by rw [h]) else isFalse (by intro hc; cases hc; exact h rfl)
  | .ok _, .error _ => isFalse (by intro hc; cases hc)
  | .error _, .ok _ => isFalse (by intro hc; cases hc)

/-- Known cryptocurrency tickers and long names excluded by
`detectCurrenciesInPurchases` (portfolio-chart.tsx:661). -/
def cryptoCurrencies : List String :=
  ["BTC", "Bitcoin", "ETH", "Ethereum", "USDC", "USDT", "Tether"]

/-- `Set.add`: JavaScript `Set` keeps insertion order and ignores
re-insertions. -/
def setAdd (s : List String) (c : String) : List String :=
  if c ∈ s then s else s ++ [c]

/-- Conditionally add one optional currency field to the set, as in
`if (p.f && !cryptoCurrencies.has(p.f)) currencies.add(p.f)`. -/
def addFieldCur (s : List String) (oc : Option String) : List String :=
  match oc with
  | none => s
  | some c => if c ≠ "" ∧ c ∉ cryptoCurrencies then setAdd s c else s

/-- The per-purchase body of the `purchases.forEach` loop in
`detectCurrenciesInPurchases`. -/
def detectStep (s : List String) (p : Purchase) : List String :=
  let s := addFieldCur s p.fiat_currency
  let s := addFieldCur s p.currency_sent
  let s := addFieldCur s p.currency_received
  let s := addFieldCur s p.fee_currency
  if p.price_usd > 0 ∨ num p.fee_usd > 0 then setAdd s "USD" else s

/-- The ordering used by `detectCurrenciesInPurchases`' final `.sort`
comparator: `"USD"` first, the rest by `localeCompare` (modelled as
lexicographic string order for currency codes). -/
def curLe (a b : String) : Prop :=
  a = "USD" ∨ (b ≠ "USD" ∧ a ≤ b)

instance : DecidableRel curLe := fun a b => by
  unfold curLe; infer_instance

instance : IsTotal String curLe :=
  ⟨fun a b => by
    by_cases ha : a = "USD"
    · exact Or.inl (Or.inl ha)
    · by_cases hb : b = "USD"
      · exact Or.inr (Or.inl hb)
      · rcases le_total a b with h | h
        · exact Or.inl (Or.inr ⟨hb, h⟩)
        · exact Or.inr (Or.inr ⟨ha, h⟩)⟩

instance : IsTrans String curLe :=
  ⟨fun a b c hab hbc => by
    rcases hab with ha | ⟨hb, hab⟩
    · exact Or.inl ha
    · rcases hbc with hb' | ⟨hc, hbc⟩
      · exact absurd hb' hb
      · exact Or.inr ⟨hc, le_trans hab hbc⟩⟩

/-- `detectCurrenciesInPurchases` (portfolio-chart.tsx:657): gather fiat
currency codes, always include `"USD"` for legacy USD-priced rows, drop
empties and crypto tickers, and sort `"USD"`-first then alphabetically.
The final `.sort` is a stable sort with a consistent comparator, modelled
by `List.insertionSort`. -/
def detectCurrenciesInPurchases (purchases : List Purchase) : List String :=
  let currencies := purchases.foldl detectStep []
  (((currencies.filter (· ≠ "")).filter (· ∉ cryptoCurrencies)).insertionSort curLe)

/-- The date ordering used by every `sort((a, b) => new Date(a.date).getTime()
- new Date(b.date).getTime())` call, parametrized by the `getTime` model. -/
def dateLe (getTime : String → Int) (a b : Purchase) : Prop :=
  getTime a.date ≤ getTime b.date

instance (getTime : String → Int) : DecidableRel (dateLe getTime) := fun a b => by
  unfold dateLe; infer_instance

instance (getTime : String → Int) : IsTotal Purchase (dateLe getTime) :=
  ⟨fun _ _ => le_total _ _⟩

instance (getTime : String → Int) : IsTrans Purchase (dateLe getTime) :=
  ⟨fun _ _ _ hab hbc => le_trans hab hbc⟩

/-- `[...purchases].sort((a, b) => new Date(a.date).getTime() - new
Date(b.date).getTime())`: a stable sort by parsed date, which is uniquely
determined and modelled by stable insertion sort. -/
def jsSortByTime (getTime : String → Int) (purchases : List Purchase) : List Purchase :=
  purchases.insertionSort (dateLe getTime)

/-- One entry of `exchangeBreakdown`. -/
structure ExchangeStats where
  count : Nat
  totalBTC : ℚ
  totalFiat : ℚ
  avgPrice : ℚ
  deriving DecidableEq

/-- One entry of `currencyBreakdown`. -/
structure CurrencyStats where
  totalAmount : ℚ
  purchaseCount : Nat
  deriving DecidableEq

/-- `largestPurchase` / `smallestPurchase` entries. -/
structure PurchaseExtreme where
  amount : ℚ
  date : String
  price : ℚ
  deriving DecidableEq

/-- `largestPurchaseBTC` / `smallestPurchaseBTC` entries. -/
structure BTCExtreme where
  amountBTC : ℚ
  date : String
  deriving DecidableEq

/-- `largestPurchaseFiat` / `smallestPurchaseFiat` entries. -/
structure FiatExtreme where
  amountFiat : ℚ
  date : String
  deriving DecidableEq

/-- `PortfolioMetrics` (lib/storage.ts): the full snapshot returned by
`calculatePortfolioMetrics`. String-keyed record fields are association
lists in key-insertion order. -/
structure PortfolioMetrics where
  totalBTC : ℚ
  totalInvested : ℚ
  averageCostBasis : ℚ
  currentValue : ℚ
  unrealizedPnL : ℚ
  unrealizedPnLPercent : ℚ
  totalFees : ℚ
  purchaseCount : Nat
  firstPurchaseDate : String
  lastPurchaseDate : String
  totalFiatAmount : ℚ
  primaryFiatCurrency : String
  averageEffectivePrice : ℚ
  feeAsPercentOfInvestment : ℚ
  exchangeBreakdown : List (String × ExchangeStats)
  transactionTypeBreakdown : List (String × Nat)
  currencyBreakdown : List (String × CurrencyStats)
  hasTransactionHashes : Bool
  hasAddresses : Bool
  timezoneMostUsed : Option String
  largestPurchase : PurchaseExtreme
  smallestPurchase : PurchaseExtreme
  largestPurchaseBTC : BTCExtreme
  smallestPurchaseBTC : BTCExtreme
  largestPurchaseFiat : FiatExtreme
  smallestPurchaseFiat : FiatExtreme
  averageExecutionPrice : ℚ
  averageEffectiveCostBasis : ℚ
  targetFiat : String
  deriving DecidableEq

/-- Update a string-keyed JavaScript object modelled as an association list:
existing keys are updated in place, new keys are appended (JS objects keep
key insertion order). -/
def bumpAssoc {β : Type} (m : List (String × β)) (k : String) (init : β)
    (f : β → β) : List (String × β) :=
  match m with
  | [] => [(k, f init)]
  | (k', v) :: rest =>
    if k' = k then (k', f v) :: rest else (k', v) :: bumpAssoc rest k init f

/-- `Object` lookup with `|| 0`-style default, used for `timezoneCounts[a]`. -/
def lookupCount (m : List (String × Nat)) (k : String) : Nat :=
  (m.lookup k).getD 0

/-- The zero snapshot returned for an empty purchase list
(portfolio-chart.tsx:778). -/
def emptyMetrics (targetFiat : String) : PortfolioMetrics where
  totalBTC := 0
  totalInvested := 0
  averageCostBasis := 0
  currentValue := 0
  unrealizedPnL := 0
  unrealizedPnLPercent := 0
  totalFees := 0
  purchaseCount := 0
  firstPurchaseDate := ""
  lastPurchaseDate := ""
  totalFiatAmount := 0
  primaryFiatCurrency := targetFiat
  averageEffectivePrice := 0
  feeAsPercentOfInvestment := 0
  exchangeBreakdown := []
  transactionTypeBreakdown := []
  currencyBreakdown := []
  hasTransactionHashes := false
  hasAddresses := false
  timezoneMostUsed := none
  largestPurchase := ⟨0, "", 0⟩
  smallestPurchase := ⟨0, "", 0⟩
  largestPurchaseBTC := ⟨0, ""⟩
  smallestPurchaseBTC := ⟨0, ""⟩
  largestPurchaseFiat := ⟨0, ""⟩
  smallestPurchaseFiat := ⟨0, ""⟩
  averageExecutionPrice := 0
  averageEffectiveCostBasis := 0
  targetFiat := targetFiat

/-- Item of the backwards-compatible `purchaseAmounts` analysis:
`{ amount, date, price: num(p.effective_price) || num(p.price_usd) }`. -/
def purchaseAmountItem (p : Purchase) : PurchaseExtreme where
  amount := p.amount_btc
  date := p.date
  price := if num p.effective_price = 0 then p.price_usd else num p.effective_price

set_option maxHeartbeats 1600000 in
/-- `calculatePortfolioMetrics` (portfolio-chart.tsx:771). The only statement
that can throw is the strict `convertPriceToTarget` call on the current
price, so the result is `Except`. `getTime` models `new Date(s).getTime()`.
The source tests `purchases.length === 0` before sorting; since the sorted
list is empty exactly when the input is, the match on the sorted list
realizes the same branch. -/
def calculatePortfolioMetrics (getTime : String → Int) (purchases : List Purchase)
    (currentBTCPrice : ℚ) (options : Options) : Except String PortfolioMetrics :=
  let targetFiat := options.fiat.getD "USD"
  let priceCur := options.currentPriceCurrency.getD "USD"
  match jsSortByTime getTime purchases with
  | [] => .ok (emptyMetrics targetFiat)
  | s0 :: srest =>
    let sortedPurchases := s0 :: srest
    let totalBTC := sortedPurchases.foldl (fun sum p => sum + p.amount_btc) 0
    let totalCostFiatExclFees :=
      sortedPurchases.foldl (fun sum p => sum + rowCostFiatExclFees p options) 0
    let totalFeesFiat := sortedPurchases.foldl (fun sum p => sum + rowFeeFiat p options) 0
    let totalInvestedFiat := totalCostFiatExclFees + totalFeesFiat
    let averageExecutionPrice := if totalBTC > 0 then totalCostFiatExclFees / totalBTC else 0
    let averageEffectiveCostBasis :=
      if totalBTC > 0 then (totalCostFiatExclFees + totalFeesFiat) / totalBTC else 0
    let averageCostBasis :=
      if options.basis = some CostBasis.execution then averageExecutionPrice
      else averageEffectiveCostBasis
    match convertPriceToTarget currentBTCPrice priceCur targetFiat options.fx
        (some (srest.getLastD s0).date) with
    | .error e => .error e
    | .ok currentPriceFiat =>
      let currentValue := totalBTC * currentPriceFiat
      let totalInvested :=
        if options.basis = some CostBasis.execution then totalCostFiatExclFees
        else totalInvestedFiat
      let unrealizedPnL := currentValue - totalInvested
      let unrealizedPnLPercent :=
        if totalInvested > 0 then unrealizedPnL / totalInvested * 100 else 0
      let totalFiatAmount := totalCostFiatExclFees
      let feeAsPercentOfInvestment :=
        if totalInvestedFiat > 0 then totalFeesFiat / totalInvestedFiat * 100 else 0
      let fiatMap : List (String × ℚ) := sortedPurchases.foldl (fun m p =>
        let cur := jsOrStr p.fiat_currency (jsOrStr p.currency_sent "USD")
        bumpAssoc m cur 0 (· + rowCostFiatExclFees p options)) []
      let primaryFiatCurrency :=
        match fiatMap with
        | [] => targetFiat
        | kv0 :: kvrest =>
          (kvrest.foldl (fun max kv => if kv.2 > max.2 then kv else max) kv0).1
      let exchangeBreakdown : List (String × ExchangeStats) :=
        sortedPurchases.foldl (fun m p =>
        let exchange := jsOrStr p.exchange (jsOrStr p.description "Unknown")
        bumpAssoc m exchange ⟨0, 0, 0, 0⟩ (fun e =>
          let count := e.count + 1
          let totalBTC := e.totalBTC + p.amount_btc
          let totalFiat := e.totalFiat + rowCostFiatExclFees p options
          ⟨count, totalBTC, totalFiat, if totalBTC > 0 then totalFiat / totalBTC else 0⟩)) []
      let transactionTypeBreakdown : List (String × Nat) :=
        sortedPurchases.foldl (fun m p =>
        bumpAssoc m (jsOrStr p.type "Purchase") 0 (· + 1)) []
      let currencyBreakdown : List (String × CurrencyStats) :=
        sortedPurchases.foldl (fun m p =>
        let currency := jsOrStr p.fiat_currency (jsOrStr p.currency_sent "USD")
        bumpAssoc m currency ⟨0, 0⟩ (fun c =>
          ⟨c.totalAmount + rowCostFiatExclFees p options, c.purchaseCount + 1⟩)) []
      let hasTransactionHashes := sortedPurchases.any (fun p => strTruthy p.transaction_hash)
      let hasAddresses := sortedPurchases.any (fun p => strTruthy p.address)
      let timezones := sortedPurchases.filterMap (fun p =>
        match p.timezone with
        | some t => if t = "" then none else some t
        | none => none)
      let timezoneCounts : List (String × Nat) :=
        timezones.foldl (fun acc tz => bumpAssoc acc tz 0 (· + 1)) []
      let timezoneMostUsed :=
        match timezoneCounts.map (·.1) with
        | [] => none
        | k0 :: krest =>
          some (krest.foldl (fun a b =>
            if lookupCount timezoneCounts a > lookupCount timezoneCounts b then a else b) k0)
      let byBTC := sortedPurchases.map (fun p => BTCExtreme.mk p.amount_btc p.date)
      let byFiat := sortedPurchases.map (fun p =>
        FiatExtreme.mk (rowCostFiatExclFees p options) p.date)
      let largestPurchaseBTC :=
        byBTC.foldl (fun m c => if c.amountBTC > m.amountBTC then c else m)
          (BTCExtreme.mk s0.amount_btc s0.date)
      let smallestPurchaseBTC :=
        byBTC.foldl (fun m c => if c.amountBTC < m.amountBTC then c else m)
          (BTCExtreme.mk s0.amount_btc s0.date)
      let largestPurchaseFiat :=
        byFiat.foldl (fun m c => if c.amountFiat > m.amountFiat then c else m)
          (FiatExtreme.mk (rowCostFiatExclFees s0 options) s0.date)
      let smallestPurchaseFiat :=
        byFiat.foldl (fun m c => if c.amountFiat < m.amountFiat then c else m)
          (FiatExtreme.mk (rowCostFiatExclFees s0 options) s0.date)
      let largestPurchase :=
        (srest.map purchaseAmountItem).foldl
          (fun max current => if current.amount > max.amount then current else max)
          (purchaseAmountItem s0)
      let smallestPurchase :=
        (srest.map purchaseAmountItem).foldl
          (fun min current => if current.amount < min.amount then current else min)
          (purchaseAmountItem s0)
      .ok {
        totalBTC
        totalInvested
        averageCostBasis
        currentValue
        unrealizedPnL
        unrealizedPnLPercent
        totalFees := totalFeesFiat
        purchaseCount := purchases.length
        firstPurchaseDate := s0.date
        lastPurchaseDate := (srest.getLastD s0).date
        totalFiatAmount
        primaryFiatCurrency
        averageEffectivePrice := averageEffectiveCostBasis
        feeAsPercentOfInvestment
        exchangeBreakdown
        transactionTypeBreakdown
        currencyBreakdown
        hasTransactionHashes
        hasAddresses
        timezoneMostUsed
        largestPurchase
        smallestPurchase
        largestPurchaseBTC
        smallestPurchaseBTC
        largestPurchaseFiat
        smallestPurchaseFiat
        averageExecutionPrice
        averageEffectiveCostBasis
        targetFiat
      }

/-- `DCAPerformancePoint` (lib/storage.ts). -/
structure DCAPerformancePoint where
  date : String
  purchaseIndex : Nat
  runningBTC : ℚ
  runningInvested : ℚ
  avgCostBasis : ℚ
  priceUsed : ℚ
  currentValue : ℚ
  unrealizedPnL : ℚ
  unrealizedPnLPercent : ℚ
  deriving DecidableEq

/-- The local `priceForPoint` of the `calculateDCAPerformance` map body
(portfolio-chart.tsx:1015): the fail-fast mark-to-market lookup or the
strict current-price conversion. -/
def dcaPriceForPoint (currentBTCPrice : ℚ) (options : Options) (p : Purchase) :
    Except String ℚ :=
  let targetFiat := options.fiat.getD "USD"
  let priceCur := options.currentPriceCurrency.getD "USD"
  if options.mode.getD DCAMode.toDate = DCAMode.markToMarket then
    match options.getHistoricalPrice with
    | none => .error "getHistoricalPrice required for markToMarket"
    | some getHist => .ok (getHist p.date)
  else
    convertPriceToTarget currentBTCPrice priceCur targetFiat options.fx (some p.date)

/-- The `.map` body of `calculateDCAPerformance` over the chronologically
sorted purchases, with the mutable accumulators (`runningBTC`,
`runningCostFiatExclFees`, `runningFeesFiat`) and the 0-based index threaded
explicitly. A throw inside one step (`dcaPriceForPoint`) aborts the whole
computation, as in the source. -/
def dcaPoints (currentBTCPrice : ℚ) (options : Options) :
    List Purchase → Nat → ℚ → ℚ → ℚ → Except String (List DCAPerformancePoint)
  | [], _, _, _, _ => .ok []
  | p :: rest, i, runningBTC, runningCostFiatExclFees, runningFeesFiat =>
    let rowFiat := rowCostFiatExclFees p options
    let rowFee := rowFeeFiat p options
    let runningBTCNext := runningBTC + p.amount_btc
    let runningCostNext := runningCostFiatExclFees + rowFiat
    let runningFeesNext := runningFeesFiat + rowFee
    let runningInvested :=
      if options.basis = some CostBasis.execution then runningCostNext
      else runningCostNext + runningFeesNext
    match dcaPriceForPoint currentBTCPrice options p with
    | .error e => .error e
    | .ok priceUsed =>
      let currentValue := runningBTCNext * priceUsed
      let unrealizedPnL := currentValue - runningInvested
      let unrealizedPnLPercent :=
        if runningInvested > 0 then unrealizedPnL / runningInvested * 100 else 0
      let avgCostBasis :=
        if options.basis = some CostBasis.execution then
          (if runningBTCNext > 0 then runningCostNext / runningBTCNext else 0)
        else
          (if runningBTCNext > 0 then (runningCostNext + runningFeesNext) / runningBTCNext
           else 0)
      match dcaPoints currentBTCPrice options rest (i + 1)
          runningBTCNext runningCostNext runningFeesNext with
      | .error e => .error e
      | .ok pts =>
        .ok ({ date := p.date, purchaseIndex := i + 1, runningBTC := runningBTCNext,
               runningInvested, avgCostBasis, priceUsed, currentValue, unrealizedPnL,
               unrealizedPnLPercent } :: pts)

/-- `calculateDCAPerformance` (portfolio-chart.tsx:984): early-return `[]`
on an empty input, otherwise sort chronologically and emit one performance
point per purchase. -/
def calculateDCAPerformance (getTime : String → Int) (purchases : List Purchase)
    (currentBTCPrice : ℚ) (options : Options) : Except String (List DCAPerformancePoint) :=
  if purchases.isEmpty then .ok []
  else dcaPoints currentBTCPrice options (jsSortByTime getTime purchases) 0 0 0 0

/-- Spec-side restatement of the cost-resolution priority (spec §4.1, rules
1–3): first determine the source amount and source currency, then convert
into the target fiat only when the source currency differs ("present" for a
string field means present and non-empty, i.e. JavaScript-truthy). Written
from the spec's words, to be compared with `Chart.rowCostFiatExclFees`. -/
def resolveCostSpec (p : Purchase) (options : Options) : Except String ℚ :=
  let target := options.fiat.getD "USD"
  let src : ℚ × String :=
    if num p.fiat_amount > 0 then
      (num p.fiat_amount,
        if strTruthy p.fiat_currency then (p.fiat_currency).getD "" else target)
    else if num p.price_fiat > 0 ∧ strTruthy p.fiat_currency then
      (p.amount_btc * num p.price_fiat, (p.fiat_currency).getD "")
    else
      (p.amount_btc * p.price_usd, "USD")
  convertPriceToTarget src.1 src.2 target options.fx (some p.date)

/-- Spec-side restatement of the fee-resolution priority (spec §4.1): prefer
`fee_fiat` (interpreted in `fiat_currency`), then `fee_amount` with
`fee_currency` when `fee_amount > 0` and a currency is given, then default
to `fee_usd` in `"USD"` (absent `fee_usd` defaulting to `0`), with the same
target-currency conversion as for cost. Written from the spec's words, to
be compared with `Chart.rowFeeFiat`. -/
def resolveFeeSpec (p : Purchase) (options : Options) : Except String ℚ :=
  let target := options.fiat.getD "USD"
  let src : ℚ × String :=
    if num p.fee_fiat > 0 ∧ strTruthy p.fiat_currency then
      (num p.fee_fiat, (p.fiat_currency).getD "")
    else if num p.fee_amount > 0 ∧ strTruthy p.fee_currency then
      (num p.fee_amount, (p.fee_currency).getD "")
    else
      (num p.fee_usd, "USD")
  convertPriceToTarget src.1 src.2 target options.fx (some p.date)

/-- The FX capability is effectively unavailable: either no provider was
supplied, or every lookup (dated and undated) returns `null`. -/
def fxUnavailable (options : Options) : Prop :=
  options.fx = none ∨
    ∃ g, options.fx = some g ∧ ∀ f t d, g.getRate f t d = none

/-- Every rate the supplied FX provider ever returns is non-negative. -/
def FXNonneg (options : Options) : Prop :=
  ∀ g, options.fx = some g → ∀ f t d r, g.getRate f t d = some r → 0 ≤ r

/-- Data-model invariant on one purchase record, strengthened with
non-negativity of the optional fiat-cost fields (spec §3 requires
`amount_btc > 0`, a positive `price_usd` and non-negative fee fields; the
optional `fiat_amount`/`price_fiat` enrichment fields must also be
non-negative for monotonicity). -/
def PurchaseOk (p : Purchase) : Prop :=
  0 < p.amount_btc ∧ 0 ≤ p.price_usd ∧ 0 ≤ num p.fee_usd ∧ 0 ≤ num p.fee_fiat ∧
    0 ≤ num p.fiat_amount ∧ 0 ≤ num p.price_fiat

instance (p : Purchase) : Decidable (PurchaseOk p) := by
  unfold PurchaseOk; infer_instance

/-- A concrete stand-in for `new Date(s).getTime()` used by closed witness
statements: any function works, this one maps a date string to its length. -/
def gtLen : String → Int := fun s => (s.length : Int)

/-- A default purchase value, used only as the (never-reached) default of
`List.getLastD` in theorem statements about non-empty lists. -/
def dummyPurchase : Purchase := { date := "", amount_btc := 0, price_usd := 0 }

/-- Witness fixture: a plain USD purchase with a fee. -/
def pUSD1 : Purchase :=
  { date := "a", amount_btc := 1, price_usd := 100, fee_usd := some 2 }

/-- Witness fixture: a later plain USD purchase with a fee. -/
def pUSD2 : Purchase :=
  { date := "bb", amount_btc := 2, price_usd := 150, fee_usd := some 3 }

/-- Witness fixture: a EUR-denominated purchase. -/
def pEUR : Purchase :=
  { date := "a", amount_btc := 2, price_usd := 40000,
    fiat_amount := some 42, fiat_currency := some "EUR" }

/-- Witness fixture: an FX provider with no rates at all. -/
def fxNoRates : FXRates := ⟨fun _ _ _ => none⟩

/-- Witness fixture: an FX provider answering `1` to every lookup. -/
def fxAllOne : FXRates := ⟨fun _ _ _ => some 1⟩

/-- Counterexample fixture: a purchase whose (data-model-legal) negative
`fiat_amount` makes the running invested total decrease. -/
def pNegFiat : Purchase :=
  { date := "bb", amount_btc := 1, price_usd := 100, fiat_amount := some (-10) }

/-- Counterexample fixture: a plain USD purchase. -/
def pBase : Purchase := { date := "a", amount_btc := 1, price_usd := 100 }

/-- Counterexample fixture: purchase with timezone `"A"` on date `"d"`. -/
def pTzA : Purchase := { date := "d", amount_btc := 1, price_usd := 10, timezone := some "A" }

/-- Counterexample fixture: purchase with timezone `"B"` on the same date. -/
def pTzB : Purchase := { date := "d", amount_btc := 1, price_usd := 10, timezone := some "B" }

/-! ## Helper lemmas -/

theorem convertPriceToTarget_self (price : ℚ) (t : String) (fx : Option FXRates)
    (d : Option String) : convertPriceToTarget price t t fx d = .ok price := by
  simp [convertPriceToTarget]

theorem jsSortByTime_perm (gt : String → Int) (l : List Purchase) :
    List.Perm (jsSortByTime gt l) l :=
  List.perm_insertionSort _ _

theorem jsSortByTime_ne_nil (gt : String → Int) {l : List Purchase} (h : l ≠ []) :
    jsSortByTime gt l ≠ [] := by
  intro hnil
  exact h (List.length_eq_zero.mp
    (by rw [← (jsSortByTime_perm gt l).length_eq, hnil, List.length_nil]))

/-! ## C6: empty input yields the zero snapshot -/

/-- C6: `calculatePortfolioMetrics` applied to the empty purchase list returns
the defined zero snapshot: every numeric field is `0`, the dates are empty
strings, all breakdown maps are empty, and both `primaryFiatCurrency` and
`targetFiat` equal the configured target fiat. -/
theorem calculatePortfolioMetrics_empty_zero (getTime : String → Int) (price : ℚ)
    (options : Options) :
    calculatePortfolioMetrics getTime [] price options = .ok
      { totalBTC := 0, totalInvested := 0, averageCostBasis := 0, currentValue := 0,
        unrealizedPnL := 0, unrealizedPnLPercent := 0, totalFees := 0, purchaseCount := 0,
        firstPurchaseDate := "", lastPurchaseDate := "", totalFiatAmount := 0,
        primaryFiatCurrency := options.fiat.getD "USD", averageEffectivePrice := 0,
        feeAsPercentOfInvestment := 0, exchangeBreakdown := [],
        transactionTypeBreakdown := [], currencyBreakdown := [],
        hasTransactionHashes := false, hasAddresses := false, timezoneMostUsed := none,
        largestPurchase := ⟨0, "", 0⟩, smallestPurchase := ⟨0, "", 0⟩,
        largestPurchaseBTC := ⟨0, ""⟩, smallestPurchaseBTC := ⟨0, ""⟩,
        largestPurchaseFiat := ⟨0, ""⟩, smallestPurchaseFiat := ⟨0, ""⟩,
        averageExecutionPrice := 0, averageEffectiveCostBasis := 0,
        targetFiat := options.fiat.getD "USD" } :=
  rfl

/-! ## C10: empty input yields the empty sequence for every options value -/

/-- C10: `calculateDCAPerformance` on the empty purchase list returns the
empty sequence and signals no error for every options value — in particular
for mode `markToMarket` with no `getHistoricalPrice`, since the fail-fast
check sits inside the per-purchase map. -/
theorem calculateDCAPerformance_empty_ok (getTime : String → Int) (price : ℚ)
    (options : Options) :
    calculateDCAPerformance getTime [] price options = .ok [] :=
  rfl

/-! ## C5: mark-to-market without a historical price function fails fast -/

/-- C5: for every non-empty purchase list, requesting mode `markToMarket`
while no `getHistoricalPrice` is supplied makes `calculateDCAPerformance`
throw a configuration error instead of silently defaulting. -/
theorem dca_markToMarket_requires_hist (getTime : String → Int)
    (purchases : List Purchase) (price : ℚ) (options : Options)
    (hne : purchases ≠ [])
    (hmode : options.mode = some DCAMode.markToMarket)
    (hhist : options.getHistoricalPrice = none) :
    calculateDCAPerformance getTime purchases price options =
      .error "getHistoricalPrice required for markToMarket" := by
  have hsorted := jsSortByTime_ne_nil getTime hne
  unfold calculateDCAPerformance
  rw [if_neg (by simpa [List.isEmpty_iff] using hne)]
  cases hs : jsSortByTime getTime purchases with
  | nil => exact absurd hs hsorted
  | cons q rest =>
    unfold dcaPoints dcaPriceForPoint
    rw [hmode, hhist]
    simp

/-- Witness for C5 at a concrete input. -/
theorem dca_markToMarket_requires_hist_witness :
    [pBase] ≠ ([] : List Purchase) ∧
      calculateDCAPerformance gtLen [pBase] 50 { mode := some DCAMode.markToMarket } =
        .error "getHistoricalPrice required for markToMarket" :=
  ⟨by decide,
    dca_markToMarket_requires_hist gtLen [pBase] 50 { mode := some DCAMode.markToMarket }
      (by decide) rfl rfl⟩

/-! ## C2 and C3: the strict resolvers follow the documented priority -/

/-- C2: for every purchase record, the strict cost resolution follows the
documented priority — `fiat_amount > 0` is authoritative (in
`fiat_currency` when present, otherwise assumed to be in the target fiat),
else `amount_btc * price_fiat` when `price_fiat > 0` and `fiat_currency` is
present, else `amount_btc * price_usd` in USD — and the chosen source
amount is converted into the target fiat only when its source currency
differs from the target. -/
theorem chart_rowCost_matches_spec_priority (p : Purchase) (options : Options) :
    Chart.rowCostFiatExclFees p options = resolveCostSpec p options := by
  unfold Chart.rowCostFiatExclFees resolveCostSpec
  by_cases h1 : num p.fiat_amount > 0
  · by_cases h2 : strTruthy p.fiat_currency
    · simp [h1, h2]
    · simp [h1, h2, convertPriceToTarget_self]
  · by_cases h3 : num p.price_fiat > 0 ∧ strTruthy p.fiat_currency
    · simp [h1, h3]
    · simp [h1, h3]

/-- C3: for every purchase record, the strict fee resolution follows the
documented priority — `fee_fiat` (interpreted in `fiat_currency`) first,
then `fee_amount` with `fee_currency` when `fee_amount > 0` and a currency
is given, then `fee_usd` assumed to be in USD and defaulting to `0` — with
the same target-currency conversion as cost resolution. -/
theorem chart_rowFee_matches_spec_priority (p : Purchase) (options : Options) :
    Chart.rowFeeFiat p options = resolveFeeSpec p options := by
  unfold Chart.rowFeeFiat resolveFeeSpec
  by_cases h1 : num p.fee_fiat > 0 ∧ strTruthy p.fiat_currency
  · simp [h1]
  · by_cases h2 : num p.fee_amount > 0 ∧ strTruthy p.fee_currency
    · simp [h1, h2]
    · simp [h1, h2]

/-! ## C1: current-price conversion in the metrics snapshot is strict -/

/-- C1 counterexample: with one purchase, target fiat `"EUR"`, the current
price quoted in the default `"USD"`, and no FX provider,
`calculatePortfolioMetrics` raises an error instead of defaulting to the
unconverted price as the claim states. -/
theorem calculatePortfolioMetrics_fx_error_cex :
    [pBase] ≠ ([] : List Purchase) ∧
      calculatePortfolioMetrics gtLen [pBase] 50000 { fiat := some "EUR" } =
        .error "FX required to convert USD->EUR" :=
  ⟨by decide, rfl⟩

set_option maxHeartbeats 1600000 in
/-- C1 (amended): for every non-empty purchase list,
`calculatePortfolioMetrics` converts the supplied current price from
`currentPriceCurrency` into the target fiat with the strict
`convertPriceToTarget`; when the currencies differ and no FX provider is
supplied it raises an error (no warn-and-continue default), and whenever a
snapshot is returned, `currentValue` equals `totalBTC` times the converted
price. -/
theorem calculatePortfolioMetrics_currentValue_conversion (getTime : String → Int)
    (purchases : List Purchase) (price : ℚ) (options : Options)
    (hne : purchases ≠ []) :
    (options.fx = none →
        options.currentPriceCurrency.getD "USD" ≠ options.fiat.getD "USD" →
        calculatePortfolioMetrics getTime purchases price options =
          .error ("FX required to convert " ++ options.currentPriceCurrency.getD "USD"
            ++ "->" ++ options.fiat.getD "USD")) ∧
    (∀ m, calculatePortfolioMetrics getTime purchases price options = .ok m →
        ∃ c, convertPriceToTarget price (options.currentPriceCurrency.getD "USD")
            (options.fiat.getD "USD") options.fx
            (some ((jsSortByTime getTime purchases).getLastD dummyPurchase).date) = .ok c ∧
          m.currentValue = m.totalBTC * c) := by
  cases hs : jsSortByTime getTime purchases with
  | nil => exact absurd hs (jsSortByTime_ne_nil getTime hne)
  | cons s0 srest =>
    constructor
    · intro hfx hcur
      unfold calculatePortfolioMetrics
      rw [hs, hfx]
      simp only [convertPriceToTarget, if_neg hcur]
    · intro m hm
      unfold calculatePortfolioMetrics at hm
      rw [hs] at hm
      dsimp only at hm
      rw [List.getLastD_cons]
      cases hc : convertPriceToTarget price (options.currentPriceCurrency.getD "USD")
          (options.fiat.getD "USD") options.fx (some (srest.getLastD s0).date) with
      | error e => rw [hc] at hm; simp at hm
      | ok c =>
        rw [hc] at hm
        dsimp only at hm
        simp only [Except.ok.injEq] at hm
        subst hm
        exact ⟨c, rfl, rfl⟩

/-- Witness for the amended C1 at a concrete input. -/
theorem calculatePortfolioMetrics_currentValue_conversion_witness :
    [pUSD1, pUSD2] ≠ ([] : List Purchase) ∧
      ((({} : Options).fx = none →
          ({} : Options).currentPriceCurrency.getD "USD" ≠ ({} : Options).fiat.getD "USD" →
          calculatePortfolioMetrics gtLen [pUSD1, pUSD2] 50000 {} =
            .error ("FX required to convert " ++ ({} : Options).currentPriceCurrency.getD "USD"
              ++ "->" ++ ({} : Options).fiat.getD "USD")) ∧
        (∀ m, calculatePortfolioMetrics gtLen [pUSD1, pUSD2] 50000 {} = .ok m →
          ∃ c, convertPriceToTarget 50000 (({} : Options).currentPriceCurrency.getD "USD")
              (({} : Options).fiat.getD "USD") ({} : Options).fx
              (some ((jsSortByTime gtLen [pUSD1, pUSD2]).getLastD dummyPurchase).date) = .ok c ∧
            m.currentValue = m.totalBTC * c)) :=
  ⟨by decide,
    calculatePortfolioMetrics_currentValue_conversion gtLen [pUSD1, pUSD2] 50000 {}
      (by decide)⟩

/-! ## C4: aggregate paths degrade per-row but the snapshot path is not total -/

theorem jsRate_none_of_unavailable {g : FXRates}
    (hg : ∀ f t d, g.getRate f t d = none) (a b : String) (d : Option String) :
    jsRate g a b d = none := by
  simp [jsRate, hg]

theorem rowCost_fallback_of_fxUnavailable (p : Purchase) (options : Options)
    (hfx : fxUnavailable options)
    (hneed : strTruthy (costSourceCur p) = true)
    (hne : costSourceCur p ≠ some (options.fiat.getD "USD")) :
    rowCostFiatExclFees p options = p.amount_btc * p.price_usd := by
  unfold rowCostFiatExclFees
  rw [if_neg (by simp [hneed, hne])]
  rcases hfx with hnone | ⟨g, hg, hrates⟩
  · rw [hnone]
  · rw [hg]
    simp [jsRate_none_of_unavailable hrates]

theorem rowFee_fallback_of_fxUnavailable (p : Purchase) (options : Options)
    (hfx : fxUnavailable options)
    (hfee : feeBase p ≠ 0)
    (hne : feeSourceCur p ≠ options.fiat.getD "USD") :
    rowFeeFiat p options = num p.fee_usd := by
  unfold rowFeeFiat
  rw [if_neg hfee, if_neg hne]
  rcases hfx with hnone | ⟨g, hg, hrates⟩
  · rw [hnone]
  · rw [hg]
    simp [jsRate_none_of_unavailable hrates]

set_option maxHeartbeats 1600000 in
theorem calculatePortfolioMetrics_ok_of_same_cur (getTime : String → Int)
    (purchases : List Purchase) (price : ℚ) (options : Options)
    (hcur : options.currentPriceCurrency.getD "USD" = options.fiat.getD "USD") :
    ∃ m, calculatePortfolioMetrics getTime purchases price options = .ok m := by
  unfold calculatePortfolioMetrics
  cases hs : jsSortByTime getTime purchases with
  | nil => exact ⟨_, rfl⟩
  | cons s0 srest =>
    dsimp only
    rw [hcur, convertPriceToTarget_self]
    exact ⟨_, rfl⟩

theorem dcaPoints_toDate_ok (price : ℚ) (options : Options)
    (hmode : options.mode.getD DCAMode.toDate = DCAMode.toDate)
    (hcur : options.currentPriceCurrency.getD "USD" = options.fiat.getD "USD") :
    ∀ (l : List Purchase) (i : Nat) (b c f : ℚ),
      ∃ pts, dcaPoints price options l i b c f = .ok pts ∧ pts.length = l.length := by
  intro l
  induction l with
  | nil => exact fun i b c f => ⟨[], rfl, rfl⟩
  | cons p rest ih =>
    intro i b c f
    obtain ⟨pts, hpts, hlen⟩ := ih (i + 1) (b + p.amount_btc)
      (c + rowCostFiatExclFees p options) (f + rowFeeFiat p options)
    unfold dcaPoints
    have hpp : dcaPriceForPoint price options p = .ok price := by
      unfold dcaPriceForPoint
      dsimp only
      rw [if_neg (by simp [hmode]), hcur, convertPriceToTarget_self]
    dsimp only
    rw [hpp, hpts]
    exact ⟨_, rfl, by simp [hlen]⟩

/-- C4 counterexample: with target fiat `"EUR"`, no FX provider and a plain
USD purchase whose FX lookup fails, the row itself falls back to
`amount_btc * price_usd`, but `calculatePortfolioMetrics` still aborts with
an error (from the current-price conversion) instead of returning a
complete snapshot. -/
theorem aggregate_paths_abort_cex :
    fxUnavailable ({ fiat := some "EUR" } : Options) ∧
      strTruthy (costSourceCur pBase) = true ∧
      costSourceCur pBase ≠ some "EUR" ∧
      rowCostFiatExclFees pBase { fiat := some "EUR" } = pBase.amount_btc * pBase.price_usd ∧
      calculatePortfolioMetrics gtLen [pBase] 50 { fiat := some "EUR" } =
        .error "FX required to convert USD->EUR" :=
  ⟨Or.inl rfl, rfl, by decide, rfl, rfl⟩

/-- C4 (amended): when the FX capability is unavailable (no provider, or a
provider whose `getRate` always returns `null`), every row whose cost or
fee would need conversion independently falls back to the legacy USD basis
(`amount_btc * price_usd` for cost, `fee_usd` for fee) and neither
`calculatePortfolioMetrics` nor `calculateDCAPerformance` aborts — provided
the current price itself needs no conversion
(`currentPriceCurrency = targetFiat`) and, for the time series, the mode is
the default `toDate`. -/
theorem aggregate_paths_fx_fallback (getTime : String → Int)
    (purchases : List Purchase) (price : ℚ) (options : Options)
    (hfx : fxUnavailable options)
    (hcur : options.currentPriceCurrency.getD "USD" = options.fiat.getD "USD")
    (hmode : options.mode.getD DCAMode.toDate = DCAMode.toDate) :
    (∀ p : Purchase, strTruthy (costSourceCur p) = true →
        costSourceCur p ≠ some (options.fiat.getD "USD") →
        rowCostFiatExclFees p options = p.amount_btc * p.price_usd) ∧
    (∀ p : Purchase, feeBase p ≠ 0 →
        feeSourceCur p ≠ options.fiat.getD "USD" →
        rowFeeFiat p options = num p.fee_usd) ∧
    (∃ m, calculatePortfolioMetrics getTime purchases price options = .ok m) ∧
    (∃ pts, calculateDCAPerformance getTime purchases price options = .ok pts ∧
        pts.length = purchases.length) := by
  refine ⟨fun p h1 h2 => rowCost_fallback_of_fxUnavailable p options hfx h1 h2,
    fun p h1 h2 => rowFee_fallback_of_fxUnavailable p options hfx h1 h2,
    calculatePortfolioMetrics_ok_of_same_cur getTime purchases price options hcur, ?_⟩
  unfold calculateDCAPerformance
  by_cases he : purchases.isEmpty
  · rw [if_pos he]
    exact ⟨[], rfl, by simp [List.isEmpty_iff.mp he]⟩
  · rw [if_neg he]
    obtain ⟨pts, hpts, hlen⟩ :=
      dcaPoints_toDate_ok price options hmode hcur (jsSortByTime getTime purchases) 0 0 0 0
    exact ⟨pts, hpts, by rw [hlen, (jsSortByTime_perm getTime purchases).length_eq]⟩

/-- Witness for the amended C4 at a concrete input: a EUR purchase, a
provider with no rates, target fiat USD. -/
theorem aggregate_paths_fx_fallback_witness :
    fxUnavailable ({ fx := some fxNoRates } : Options) ∧
      (∃ m, calculatePortfolioMetrics gtLen [pEUR] 50000 { fx := some fxNoRates } = .ok m) ∧
      (∃ pts, calculateDCAPerformance gtLen [pEUR] 50000 { fx := some fxNoRates } = .ok pts ∧
          pts.length = [pEUR].length) ∧
      rowCostFiatExclFees pEUR { fx := some fxNoRates } = pEUR.amount_btc * pEUR.price_usd := by
  have hfx : fxUnavailable ({ fx := some fxNoRates } : Options) :=
    Or.inr ⟨fxNoRates, rfl, fun _ _ _ => rfl⟩
  obtain ⟨h1, h2, h3, h4⟩ :=
    aggregate_paths_fx_fallback gtLen [pEUR] 50000 { fx := some fxNoRates } hfx rfl rfl
  exact ⟨hfx, h3, h4, h1 pEUR rfl (by decide)⟩

/-! ## C8: monotone running totals need non-negative fiat fields -/

theorem costRowFiat_nonneg (p : Purchase) (hp : PurchaseOk p) : 0 ≤ costRowFiat p := by
  obtain ⟨hamt, husd, _, _, hfa, hpf⟩ := hp
  unfold costRowFiat
  cases h : p.fiat_amount with
  | some v =>
    rw [num, h] at hfa
    simpa [num, h] using hfa
  | none =>
    have hbase : 0 ≤ p.amount_btc *
        (if num p.price_fiat = 0 then p.price_usd else num p.price_fiat) := by
      apply mul_nonneg hamt.le
      split
      · exact husd
      · exact hpf
    simpa [num, h] using hbase

theorem rate_nonneg_of_jsRate {options : Options} (hfx : FXNonneg options)
    {g : FXRates} (hg : options.fx = some g) {a b : String} {d : Option String} {r : ℚ}
    (hr : jsRate g a b d = some r) : 0 ≤ r := by
  unfold jsRate at hr
  cases h' : g.getRate a b d with
  | some r' => rw [h'] at hr; cases hr; exact hfx g hg _ _ _ _ h'
  | none => rw [h'] at hr; exact hfx g hg _ _ _ _ hr

theorem rowCost_nonneg (p : Purchase) (options : Options) (hp : PurchaseOk p)
    (hfx : FXNonneg options) : 0 ≤ rowCostFiatExclFees p options := by
  have hbase : 0 ≤ p.amount_btc * p.price_usd := mul_nonneg hp.1.le hp.2.1
  unfold rowCostFiatExclFees
  dsimp only
  split
  · exact costRowFiat_nonneg p hp
  · cases hg : options.fx with
    | none => exact hbase
    | some g =>
      dsimp only
      cases hr : jsRate g ((costSourceCur p).getD "") (options.fiat.getD "USD") (some p.date) with
      | none => exact hbase
      | some r =>
        dsimp only
        split
        · exact hbase
        · exact mul_nonneg (costRowFiat_nonneg p hp) (rate_nonneg_of_jsRate hfx hg hr)

theorem feeBase_nonneg (p : Purchase) (hp : PurchaseOk p) : 0 ≤ feeBase p := by
  obtain ⟨_, _, hfu, hff, _, _⟩ := hp
  unfold feeBase
  cases h : p.fee_fiat with
  | some v =>
    rw [num, h] at hff
    simpa [num, h] using hff
  | none => simpa [num, h] using hfu

theorem rowFee_nonneg (p : Purchase) (options : Options) (hp : PurchaseOk p)
    (hfx : FXNonneg options) : 0 ≤ rowFeeFiat p options := by
  have hfu : 0 ≤ num p.fee_usd := hp.2.2.1
  unfold rowFeeFiat
  dsimp only
  split
  · exact le_refl 0
  · split
    · exact feeBase_nonneg p hp
    · cases hg : options.fx with
      | none => exact hfu
      | some g =>
        dsimp only
        cases hr : jsRate g (feeSourceCur p) (options.fiat.getD "USD") (some p.date) with
        | none => exact hfu
        | some r =>
          dsimp only
          split
          · exact hfu
          · exact mul_nonneg (feeBase_nonneg p hp) (rate_nonneg_of_jsRate hfx hg hr)

theorem dcaPoints_chain (price : ℚ) (options : Options) (hfx : FXNonneg options) :
    ∀ (l : List Purchase), (∀ p ∈ l, PurchaseOk p) →
      ∀ (i : Nat) (b c f : ℚ) (pts : List DCAPerformancePoint),
        dcaPoints price options l i b c f = .ok pts →
        List.Chain' (· ≤ ·) (pts.map DCAPerformancePoint.runningBTC) ∧
        List.Chain' (· ≤ ·) (pts.map DCAPerformancePoint.runningInvested) ∧
        (∀ q ∈ pts.head?, b ≤ q.runningBTC ∧
          (if options.basis = some CostBasis.execution then c else c + f) ≤ q.runningInvested) := by
  intro l
  induction l with
  | nil =>
    intro _ i b c f pts hpts
    unfold dcaPoints at hpts
    cases hpts
    exact ⟨List.chain'_nil, List.chain'_nil, by simp⟩
  | cons p rest ih =>
    intro hinv i b c f pts hpts
    have hpok : PurchaseOk p := hinv p (List.mem_cons_self p rest)
    have hrest : ∀ q ∈ rest, PurchaseOk q := fun q hq => hinv q (List.mem_cons_of_mem p hq)
    have hcost : 0 ≤ rowCostFiatExclFees p options := rowCost_nonneg p options hpok hfx
    have hfee : 0 ≤ rowFeeFiat p options := rowFee_nonneg p options hpok hfx
    unfold dcaPoints at hpts
    dsimp only at hpts
    cases hpp : dcaPriceForPoint price options p with
    | error e => rw [hpp] at hpts; simp at hpts
    | ok pu =>
      rw [hpp] at hpts
      dsimp only at hpts
      cases hrec : dcaPoints price options rest (i + 1) (b + p.amount_btc)
          (c + rowCostFiatExclFees p options) (f + rowFeeFiat p options) with
      | error e => rw [hrec] at hpts; simp at hpts
      | ok tailpts =>
        rw [hrec] at hpts
        simp only [Except.ok.injEq] at hpts
        subst hpts
        obtain ⟨hchainB, hchainI, hhead⟩ := ih hrest (i + 1) (b + p.amount_btc)
          (c + rowCostFiatExclFees p options) (f + rowFeeFiat p options) tailpts hrec
        have hstepB : b ≤ b + p.amount_btc := le_add_of_nonneg_right hpok.1.le
        have hstepI : (if options.basis = some CostBasis.execution then c else c + f) ≤
            (if options.basis = some CostBasis.execution then c + rowCostFiatExclFees p options
             else c + rowCostFiatExclFees p options + (f + rowFeeFiat p options)) := by
          split
          · exact le_add_of_nonneg_right hcost
          · calc c + f ≤ (c + rowCostFiatExclFees p options) + f :=
                  add_le_add_right (le_add_of_nonneg_right hcost) f
              _ ≤ (c + rowCostFiatExclFees p options) + (f + rowFeeFiat p options) :=
                  add_le_add_left (le_add_of_nonneg_right hfee) _
        refine ⟨?_, ?_, ?_⟩
        · rw [List.map_cons]
          apply List.chain'_cons'.mpr
          refine ⟨?_, hchainB⟩
          intro x hx
          rw [List.head?_map] at hx
          obtain ⟨q, hq, rfl⟩ := Option.map_eq_some'.mp hx
          exact (hhead q hq).1
        · rw [List.map_cons]
          apply List.chain'_cons'.mpr
          refine ⟨?_, hchainI⟩
          intro x hx
          rw [List.head?_map] at hx
          obtain ⟨q, hq, rfl⟩ := Option.map_eq_some'.mp hx
          exact (hhead q hq).2
        · intro q hq
          simp only [List.head?_cons, Option.mem_def, Option.some.injEq] at hq
          subst hq
          exact ⟨hstepB, hstepI⟩

set_option maxHeartbeats 1000000 in
/-- C8 (amended): for purchase lists satisfying the data-model invariant
strengthened with non-negative optional fiat-cost fields (`PurchaseOk`),
and FX providers returning only non-negative rates, `runningBTC` and
`runningInvested` are non-decreasing across the returned performance
sequence. -/
theorem dca_running_totals_monotone (getTime : String → Int) (purchases : List Purchase)
    (price : ℚ) (options : Options)
    (hinv : ∀ p ∈ purchases, PurchaseOk p) (hfx : FXNonneg options) :
    ∀ pts, calculateDCAPerformance getTime purchases price options = .ok pts →
      List.Chain' (· ≤ ·) (pts.map DCAPerformancePoint.runningBTC) ∧
      List.Chain' (· ≤ ·) (pts.map DCAPerformancePoint.runningInvested) := by
  intro pts hpts
  unfold calculateDCAPerformance at hpts
  by_cases he : purchases.isEmpty
  · rw [if_pos he] at hpts
    cases hpts
    exact ⟨List.chain'_nil, List.chain'_nil⟩
  · rw [if_neg he] at hpts
    have hsortinv : ∀ p ∈ jsSortByTime getTime purchases, PurchaseOk p := fun p hp =>
      hinv p ((jsSortByTime_perm getTime purchases).mem_iff.mp hp)
    obtain ⟨h1, h2, _⟩ :=
      dcaPoints_chain price options hfx (jsSortByTime getTime purchases) hsortinv 0 0 0 0 pts hpts
    exact ⟨h1, h2⟩

set_option maxHeartbeats 1000000 in
/-- C8 counterexample: a purchase list satisfying the claim's stated
invariant (`amount_btc > 0`, present fee fields non-negative) and an FX
provider returning only non-negative rates, for which `runningInvested`
decreases from `100` to `90` because the second purchase carries a negative
`fiat_amount`, which the stated invariant does not rule out. -/
theorem running_invested_decrease_cex :
    (∀ p ∈ [pBase, pNegFiat], 0 < p.amount_btc ∧ 0 ≤ num p.fee_usd ∧ 0 ≤ num p.fee_fiat) ∧
      (∀ f t d r, fxAllOne.getRate f t d = some r → 0 ≤ r) ∧
      (calculateDCAPerformance gtLen [pBase, pNegFiat] 50 { fx := some fxAllOne }).map
          (fun pts => pts.map DCAPerformancePoint.runningInvested) = .ok [100, 90] ∧
      ¬ ((100 : ℚ) ≤ 90) := by
  refine ⟨by decide, ?_, ?_, by norm_num⟩
  · intro f t d r h
    injection h with h
    rw [← h]
    norm_num
  · have hmm : (DCAMode.toDate = DCAMode.markToMarket) = False :=
      eq_false (fun h => DCAMode.noConfusion h)
    norm_num [calculateDCAPerformance, jsSortByTime, List.insertionSort, List.orderedInsert,
      dateLe, gtLen, dcaPoints, dcaPriceForPoint, convertPriceToTarget, rowCostFiatExclFees,
      rowFeeFiat, costRowFiat, costSourceCur, feeSourceCur, feeBase, num, strTruthy, jsRate,
      fxAllOne, pBase, pNegFiat, Except.map, hmm]

/-- Witness for the amended C8 at a concrete input. -/
theorem dca_running_totals_monotone_witness :
    (∀ p ∈ [pUSD1, pUSD2], PurchaseOk p) ∧ FXNonneg ({} : Options) ∧
      ∃ pts, calculateDCAPerformance gtLen [pUSD1, pUSD2] 50000 {} = .ok pts ∧
        List.Chain' (· ≤ ·) (pts.map DCAPerformancePoint.runningBTC) ∧
        List.Chain' (· ≤ ·) (pts.map DCAPerformancePoint.runningInvested) := by
  have heq : calculateDCAPerformance gtLen [pUSD1, pUSD2] 50000 {} =
      .ok ((calculateDCAPerformance gtLen [pUSD1, pUSD2] 50000 {}).toOption.getD []) := rfl
  have h := dca_running_totals_monotone gtLen [pUSD1, pUSD2] 50000 {} (by decide)
    (fun g hg => Option.noConfusion hg) _ heq
  exact ⟨by decide, fun g hg => Option.noConfusion hg, _, heq, h⟩

/-! ## C7: permutation invariance holds only for tie-free date keys -/

theorem jsSortByTime_sorted_strict (gt : String → Int) {l : List Purchase}
    (hnd : (l.map fun p => gt p.date).Nodup) :
    List.Sorted (fun a b : Purchase => gt a.date < gt b.date) (jsSortByTime gt l) := by
  have hs : List.Sorted (dateLe gt) (jsSortByTime gt l) :=
    List.sorted_insertionSort (dateLe gt) l
  have hnd' : ((jsSortByTime gt l).map fun p => gt p.date).Nodup :=
    (List.Perm.nodup_iff ((jsSortByTime_perm gt l).map _)).mpr hnd
  have hpw : (jsSortByTime gt l).Pairwise (fun a b => gt a.date ≠ gt b.date) :=
    List.pairwise_map.mp hnd'
  exact (hs.and hpw).imp (fun h => lt_of_le_of_ne h.1 h.2)

theorem jsSortByTime_eq_of_perm (gt : String → Int) {l l' : List Purchase}
    (hp : List.Perm l l') (hnd : (l.map fun p => gt p.date).Nodup) :
    jsSortByTime gt l = jsSortByTime gt l' := by
  haveI : IsAntisymm Purchase (fun a b => gt a.date < gt b.date) :=
    ⟨fun a b h1 h2 => absurd (lt_trans h1 h2) (lt_irrefl _)⟩
  refine List.eq_of_perm_of_sorted ?_ (jsSortByTime_sorted_strict gt hnd)
    (jsSortByTime_sorted_strict gt ?_)
  · exact (jsSortByTime_perm gt l).trans (hp.trans (jsSortByTime_perm gt l').symm)
  · exact (List.Perm.nodup_iff (hp.map _)).mp hnd

/-- C7 counterexample: two purchases sharing one date but carrying different
timezones. Swapping them changes `timezoneMostUsed` (the tie in the
timezone counts is broken by key insertion order, which follows input
order on equal dates), so the snapshot is not permutation-invariant. -/
theorem perm_invariance_cex :
    List.Perm [pTzA, pTzB] [pTzB, pTzA] ∧
      (calculatePortfolioMetrics gtLen [pTzA, pTzB] 5 {}).map
          PortfolioMetrics.timezoneMostUsed = .ok (some "B") ∧
      (calculatePortfolioMetrics gtLen [pTzB, pTzA] 5 {}).map
          PortfolioMetrics.timezoneMostUsed = .ok (some "A") ∧
      calculatePortfolioMetrics gtLen [pTzA, pTzB] 5 {} ≠
        calculatePortfolioMetrics gtLen [pTzB, pTzA] 5 {} := by
  have hA : (calculatePortfolioMetrics gtLen [pTzA, pTzB] 5 {}).map
      PortfolioMetrics.timezoneMostUsed = .ok (some "B") := rfl
  have hB : (calculatePortfolioMetrics gtLen [pTzB, pTzA] 5 {}).map
      PortfolioMetrics.timezoneMostUsed = .ok (some "A") := rfl
  refine ⟨by decide, hA, hB, fun heq => ?_⟩
  rw [heq, hB] at hA
  exact absurd (Except.ok.inj hA) (by decide)

set_option maxHeartbeats 1600000 in
/-- C7 (amended): for every purchase list whose parsed date timestamps are
pairwise distinct, every permutation of the input yields the identical
metrics snapshot and the identical performance sequence (the chronological
re-sort is then unique, so even tie-breaking cannot differ). -/
theorem perm_invariance_distinct_dates (getTime : String → Int)
    (ps ps' : List Purchase) (price : ℚ) (options : Options)
    (hperm : List.Perm ps ps')
    (hnd : (ps.map fun p => getTime p.date).Nodup) :
    calculatePortfolioMetrics getTime ps price options =
      calculatePortfolioMetrics getTime ps' price options ∧
    calculateDCAPerformance getTime ps price options =
      calculateDCAPerformance getTime ps' price options := by
  have hsort : jsSortByTime getTime ps = jsSortByTime getTime ps' :=
    jsSortByTime_eq_of_perm getTime hperm hnd
  have hlen : ps.length = ps'.length := hperm.length_eq
  have hemp : ps.isEmpty = ps'.isEmpty := by
    cases ps with
    | nil => rw [(List.Perm.eq_nil hperm.symm)]
    | cons a as =>
      cases hq : ps' with
      | nil => rw [hq] at hperm; exact absurd (List.Perm.eq_nil hperm) (by simp)
      | cons b bs => rfl
  constructor
  · unfold calculatePortfolioMetrics
    rw [hsort, hlen]
  · unfold calculateDCAPerformance
    rw [hsort, hemp]

/-- Witness for the amended C7 at a concrete input. -/
theorem perm_invariance_distinct_dates_witness :
    List.Perm [pUSD1, pUSD2] [pUSD2, pUSD1] ∧
      (([pUSD1, pUSD2].map fun p => gtLen p.date).Nodup) ∧
      calculatePortfolioMetrics gtLen [pUSD1, pUSD2] 50 {} =
        calculatePortfolioMetrics gtLen [pUSD2, pUSD1] 50 {} ∧
      calculateDCAPerformance gtLen [pUSD1, pUSD2] 50 {} =
        calculateDCAPerformance gtLen [pUSD2, pUSD1] 50 {} := by
  obtain ⟨h1, h2⟩ := perm_invariance_distinct_dates gtLen [pUSD1, pUSD2] [pUSD2, pUSD1]
    50 {} (by decide) (by decide)
  exact ⟨by decide, by decide, h1, h2⟩

/-! ## C9: the currency-detection contract -/

theorem mem_setAdd {s : List String} {c x : String} :
    x ∈ setAdd s c ↔ x ∈ s ∨ x = c := by
  unfold setAdd
  split
  · constructor
    · exact Or.inl
    · rintro (h | rfl)
      · exact h
      · assumption
  · simp [List.mem_append]

theorem setAdd_nodup {s : List String} (h : s.Nodup) (c : String) :
    (setAdd s c).Nodup := by
  unfold setAdd
  split
  · exact h
  · simpa [List.nodup_append] using ⟨h, by assumption⟩

theorem mem_addFieldCur_of_mem {s : List String} {x : String} (oc : Option String)
    (h : x ∈ s) : x ∈ addFieldCur s oc := by
  unfold addFieldCur
  cases oc with
  | none => exact h
  | some c =>
    dsimp only
    split
    · exact mem_setAdd.mpr (Or.inl h)
    · exact h

theorem addFieldCur_nodup {s : List String} (h : s.Nodup) (oc : Option String) :
    (addFieldCur s oc).Nodup := by
  unfold addFieldCur
  cases oc with
  | none => exact h
  | some c =>
    dsimp only
    split
    · exact setAdd_nodup h c
    · exact h

theorem mem_addFieldCur {s : List String} {x : String} {oc : Option String}
    (h : x ∈ addFieldCur s oc) : x ∈ s ∨ (oc = some x ∧ x ≠ "" ∧ x ∉ cryptoCurrencies) := by
  unfold addFieldCur at h
  cases oc with
  | none => exact Or.inl h
  | some c =>
    dsimp only at h
    by_cases hc : c ≠ "" ∧ c ∉ cryptoCurrencies
    · rw [if_pos hc] at h
      rcases mem_setAdd.mp h with h | rfl
      · exact Or.inl h
      · exact Or.inr ⟨rfl, hc⟩
    · rw [if_neg hc] at h
      exact Or.inl h

theorem mem_detectStep_of_mem {s : List String} {x : String} (p : Purchase)
    (h : x ∈ s) : x ∈ detectStep s p := by
  unfold detectStep
  have h1 := mem_addFieldCur_of_mem p.fiat_currency h
  have h2 := mem_addFieldCur_of_mem p.currency_sent h1
  have h3 := mem_addFieldCur_of_mem p.currency_received h2
  have h4 := mem_addFieldCur_of_mem p.fee_currency h3
  split
  · exact mem_setAdd.mpr (Or.inl h4)
  · exact h4

theorem detectStep_nodup {s : List String} (h : s.Nodup) (p : Purchase) :
    (detectStep s p).Nodup := by
  unfold detectStep
  have h4 := addFieldCur_nodup (addFieldCur_nodup (addFieldCur_nodup
    (addFieldCur_nodup h p.fiat_currency) p.currency_sent) p.currency_received) p.fee_currency
  split
  · exact setAdd_nodup h4 "USD"
  · exact h4

theorem usd_mem_detectStep {s : List String} {p : Purchase}
    (h : p.price_usd > 0 ∨ num p.fee_usd > 0) : "USD" ∈ detectStep s p := by
  unfold detectStep
  rw [if_pos h]
  exact mem_setAdd.mpr (Or.inr rfl)

theorem mem_detectStep {s : List String} {x : String} {p : Purchase}
    (h : x ∈ detectStep s p) :
    x ∈ s ∨ x = "USD" ∨ p.fiat_currency = some x ∨ p.currency_sent = some x ∨
      p.currency_received = some x ∨ p.fee_currency = some x := by
  unfold detectStep at h
  have step : ∀ y ∈ (if p.price_usd > 0 ∨ num p.fee_usd > 0
      then setAdd (addFieldCur (addFieldCur (addFieldCur (addFieldCur s p.fiat_currency)
        p.currency_sent) p.currency_received) p.fee_currency) "USD"
      else addFieldCur (addFieldCur (addFieldCur (addFieldCur s p.fiat_currency)
        p.currency_sent) p.currency_received) p.fee_currency),
      y ∈ addFieldCur (addFieldCur (addFieldCur (addFieldCur s p.fiat_currency)
        p.currency_sent) p.currency_received) p.fee_currency ∨ y = "USD" := by
    intro y hy
    split at hy
    · rcases mem_setAdd.mp hy with hy | rfl
      · exact Or.inl hy
      · exact Or.inr rfl
    · exact Or.inl hy
  rcases step x h with h4 | rfl
  · rcases mem_addFieldCur h4 with h3 | ⟨he, _⟩
    · rcases mem_addFieldCur h3 with h2 | ⟨he, _⟩
      · rcases mem_addFieldCur h2 with h1 | ⟨he, _⟩
        · rcases mem_addFieldCur h1 with h0 | ⟨he, _⟩
          · exact Or.inl h0
          · exact Or.inr (Or.inr (Or.inl he))
        · exact Or.inr (Or.inr (Or.inr (Or.inl he)))
      · exact Or.inr (Or.inr (Or.inr (Or.inr (Or.inl he))))
    · exact Or.inr (Or.inr (Or.inr (Or.inr (Or.inr he))))
  · exact Or.inr (Or.inl rfl)

theorem mem_foldl_detectStep_of_mem {x : String} :
    ∀ (ps : List Purchase) (s : List String), x ∈ s → x ∈ ps.foldl detectStep s := by
  intro ps
  induction ps with
  | nil => exact fun s h => h
  | cons p rest ih => exact fun s h => ih (detectStep s p) (mem_detectStep_of_mem p h)

theorem foldl_detectStep_nodup :
    ∀ (ps : List Purchase) (s : List String), s.Nodup → (ps.foldl detectStep s).Nodup := by
  intro ps
  induction ps with
  | nil => exact fun s h => h
  | cons p rest ih => exact fun s h => ih (detectStep s p) (detectStep_nodup h p)

theorem usd_mem_foldl_detectStep {x : Purchase} :
    ∀ (ps : List Purchase) (s : List String), x ∈ ps →
      (x.price_usd > 0 ∨ num x.fee_usd > 0) → "USD" ∈ ps.foldl detectStep s := by
  intro ps
  induction ps with
  | nil => intro s h; cases h
  | cons p rest ih =>
    intro s hmem hcond
    rcases List.mem_cons.mp hmem with rfl | hmem
    · exact mem_foldl_detectStep_of_mem rest (detectStep s x) (usd_mem_detectStep hcond)
    · exact ih (detectStep s p) hmem hcond

theorem mem_foldl_detectStep {x : String} :
    ∀ (ps : List Purchase) (s : List String), x ∈ ps.foldl detectStep s →
      x ∈ s ∨ x = "USD" ∨ ∃ p ∈ ps, p.fiat_currency = some x ∨ p.currency_sent = some x ∨
        p.currency_received = some x ∨ p.fee_currency = some x := by
  intro ps
  induction ps with
  | nil => exact fun s h => Or.inl h
  | cons p rest ih =>
    intro s h
    rcases ih (detectStep s p) h with h' | h' | ⟨q, hq, hfield⟩
    · rcases mem_detectStep h' with h0 | h0 | hf
      · exact Or.inl h0
      · exact Or.inr (Or.inl h0)
      · exact Or.inr (Or.inr ⟨p, List.mem_cons_self p rest, hf⟩)
    · exact Or.inr (Or.inl h')
    · exact Or.inr (Or.inr ⟨q, List.mem_cons_of_mem p hq, hfield⟩)

theorem field_mem_detectStep {s : List String} {p : Purchase} {c : String}
    (hc : c ≠ "" ∧ c ∉ cryptoCurrencies)
    (hf : p.fiat_currency = some c ∨ p.currency_sent = some c ∨
      p.currency_received = some c ∨ p.fee_currency = some c) :
    c ∈ detectStep s p := by
  have hadd : ∀ (t : List String), c ∈ addFieldCur t (some c) := fun t => by
    unfold addFieldCur
    dsimp only
    rw [if_pos hc]
    exact mem_setAdd.mpr (Or.inr rfl)
  unfold detectStep
  have main : c ∈ addFieldCur (addFieldCur (addFieldCur (addFieldCur s p.fiat_currency)
      p.currency_sent) p.currency_received) p.fee_currency := by
    rcases hf with hf | hf | hf | hf
    · rw [hf]
      exact mem_addFieldCur_of_mem _ (mem_addFieldCur_of_mem _ (mem_addFieldCur_of_mem _
        (hadd s)))
    · rw [hf]
      exact mem_addFieldCur_of_mem _ (mem_addFieldCur_of_mem _ (hadd _))
    · rw [hf]
      exact mem_addFieldCur_of_mem _ (hadd _)
    · rw [hf]
      exact hadd _
  split
  · exact mem_setAdd.mpr (Or.inl main)
  · exact main

theorem field_mem_foldl_detectStep {c : String} {q : Purchase}
    (hc : c ≠ "" ∧ c ∉ cryptoCurrencies) :
    ∀ (ps : List Purchase) (s : List String), q ∈ ps →
      (q.fiat_currency = some c ∨ q.currency_sent = some c ∨
        q.currency_received = some c ∨ q.fee_currency = some c) →
      c ∈ ps.foldl detectStep s := by
  intro ps
  induction ps with
  | nil => intro s h; cases h
  | cons p rest ih =>
    intro s hmem hf
    rcases List.mem_cons.mp hmem with rfl | hmem
    · exact mem_foldl_detectStep_of_mem rest (detectStep s q) (field_mem_detectStep hc hf)
    · exact ih (detectStep s p) hmem hf

/-- C9: `detectCurrenciesInPurchases` returns a deduplicated list of currency
codes gathered from the purchases' currency fields, excludes the known
cryptocurrency tickers and long names as well as empty codes, includes
`"USD"` whenever some purchase has `price_usd > 0` or `fee_usd > 0`,
contains every eligible (non-empty, non-crypto) field value, and is ordered
by the `"USD"`-first / otherwise-alphabetical ordering `curLe`. -/
theorem detectCurrencies_contract (purchases : List Purchase) :
    (detectCurrenciesInPurchases purchases).Nodup ∧
      (∀ c ∈ detectCurrenciesInPurchases purchases, c ∉ cryptoCurrencies ∧ c ≠ "") ∧
      ((∃ p ∈ purchases, p.price_usd > 0 ∨ num p.fee_usd > 0) →
        "USD" ∈ detectCurrenciesInPurchases purchases) ∧
      List.Sorted curLe (detectCurrenciesInPurchases purchases) ∧
      (∀ c ∈ detectCurrenciesInPurchases purchases, c = "USD" ∨
        ∃ p ∈ purchases, p.fiat_currency = some c ∨ p.currency_sent = some c ∨
          p.currency_received = some c ∨ p.fee_currency = some c) ∧
      (∀ q ∈ purchases, ∀ c : String, c ≠ "" → c ∉ cryptoCurrencies →
        (q.fiat_currency = some c ∨ q.currency_sent = some c ∨
          q.currency_received = some c ∨ q.fee_currency = some c) →
        c ∈ detectCurrenciesInPurchases purchases) := by
  refine ⟨?_, ?_, ?_, ?_, ?_, ?_⟩
  · unfold detectCurrenciesInPurchases
    refine (List.Perm.nodup_iff (List.perm_insertionSort curLe _)).mpr ?_
    exact ((foldl_detectStep_nodup purchases [] List.nodup_nil).filter _).filter _
  · intro c hc
    unfold detectCurrenciesInPurchases at hc
    rw [List.mem_insertionSort] at hc
    obtain ⟨hc1, hc2⟩ := List.mem_filter.mp hc
    obtain ⟨_, hc3⟩ := List.mem_filter.mp hc1
    exact ⟨by simpa using hc2, by simpa using hc3⟩
  · rintro ⟨p, hp, hcond⟩
    unfold detectCurrenciesInPurchases
    rw [List.mem_insertionSort]
    refine List.mem_filter.mpr ⟨List.mem_filter.mpr ⟨?_, by decide⟩, by decide⟩
    exact usd_mem_foldl_detectStep purchases [] hp hcond
  · exact List.sorted_insertionSort curLe _
  · intro c hc
    unfold detectCurrenciesInPurchases at hc
    rw [List.mem_insertionSort] at hc
    obtain ⟨hc1, _⟩ := List.mem_filter.mp hc
    obtain ⟨hc0, _⟩ := List.mem_filter.mp hc1
    rcases mem_foldl_detectStep purchases [] hc0 with h | h | h
    · cases h
    · exact Or.inl h
    · exact Or.inr h
  · intro q hq c hne hnc hf
    unfold detectCurrenciesInPurchases
    rw [List.mem_insertionSort]
    refine List.mem_filter.mpr ⟨List.mem_filter.mpr ⟨?_, by simpa⟩, by simpa⟩
    exact field_mem_foldl_detectStep ⟨hne, hnc⟩ purchases [] hq hf

/-- Witness for C9 applied at a concrete purchase list. -/
theorem detectCurrencies_contract_witness :
    "USD" ∈ detectCurrenciesInPurchases [pUSD1, pEUR] ∧
      "EUR" ∈ detectCurrenciesInPurchases [pUSD1, pEUR] ∧
      List.Sorted curLe (detectCurrenciesInPurchases [pUSD1, pEUR]) :=
  ⟨(detectCurrencies_contract [pUSD1, pEUR]).2.2.1
      ⟨pUSD1, by decide, Or.inl (by norm_num [pUSD1])⟩,
    (detectCurrencies_contract [pUSD1, pEUR]).2.2.2.2.2 pEUR (by decide) "EUR"
      (by decide) (by decide) (Or.inl rfl),
    (detectCurrencies_contract [pUSD1, pEUR]).2.2.2.1⟩
